import Mathlib

/-!
Shallow embedding of the rinha-interpreter core (src/ast.rs, src/env.rs,
src/eval.rs): the AST data model, the scope-chain environment, and the
recursive evaluator, together with theorems checking the specification's
claims about them.

Modelling conventions:
* Rust `i32` values are Lean `Int`s; every arithmetic primitive applies
  `wrap32` (reduction into `[-2^31, 2^31)`), mirroring the `wrapping_*`
  methods used in `impl_binary_op!`.
* The Rust evaluator is a host-recursive function that can diverge
  (unbounded recursion in the evaluated program) and can panic (zero
  divisor in `wrapping_div` / `wrapping_rem`).  The embedding is a
  fuel-indexed total function returning `Result`: `.ok env out term` for a
  normal return (with the final environment and the lines printed, in
  order), `.panic` for a host panic, `.timeout` when the fuel runs out
  (a model artifact, not a program behaviour).
* `Env` in Rust is `Rc<RefCell<...>>`-shared with a parent link.  `set`
  only ever writes to the local frame and no code reassigns a frame, so
  a call's child frame can never be observed to mutate its parents; the
  embedding therefore passes environments by value, and `eval_call`
  returns the caller's environment as it stood after evaluating the
  callee, exactly as the Rust caller sees it.
* Rust `HashMap<String, Term>` is an association list; since insertion
  happens only when the key is absent (`Env::set`), `List.lookup` agrees
  with the map semantics.
-/

/-- `Location` from src/ast.rs: `start`, `end`, `filename`.  The field
`end` is a Lean keyword, hence `end_`. -/
structure Location where
  start : Nat
  end_ : Nat
  filename : String
deriving DecidableEq, Repr

/-- The default location (Rust `Default` derive: zeros and empty string). -/
def dloc : Location := ⟨0, 0, ""⟩

/-- `Var` from src/ast.rs. -/
structure Var where
  text : String
  location : Location
deriving DecidableEq, Repr

/-- `BinaryOp` from src/ast.rs: the 13 operator tags. -/
inductive BinaryOp where
  | Add | Sub | Mul | Div | Rem
  | Eq | Neq | Lt | Gt | Lte | Gte
  | And | Or
deriving DecidableEq, Repr

/-- `Term` from src/ast.rs: the closed tagged union of node kinds.  The
payload structs (`Int`, `Str`, ...) are inlined as constructor fields. -/
inductive Term where
  | Error (message : String) (full_text : String) (location : Location)
  | Int (value : Int) (location : Location)
  | Str (value : String) (location : Location)
  | Call (callee : Term) (arguments : List Term) (location : Location)
  | Binary (lhs : Term) (op : BinaryOp) (rhs : Term) (location : Location)
  | Function (parameters : List Var) (value : Term) (location : Location)
  | Let (name : Var) (value : Term) (next : Term) (location : Location)
  | If (condition : Term) (then_ : Term) (otherwise : Term) (location : Location)
  | Print (value : Term) (location : Location)
  | First (value : Term) (location : Location)
  | Second (value : Term) (location : Location)
  | Bool (value : Bool) (location : Location)
  | Tuple (first : Term) (second : Term) (location : Location)
  | Var (v : Var)
deriving Repr

mutual

/-- The derived `PartialEq`/`Eq` of `Term` (src/ast.rs): field-by-field
structural equality, locations included.  This is the comparison that
`eval_eq`/`eval_neq` in src/eval.rs perform with `==`/`!=`. -/
def beqTerm : Term → Term → Bool
  | .Error m1 f1 l1, .Error m2 f2 l2 =>
    decide (m1 = m2) && decide (f1 = f2) && decide (l1 = l2)
  | .Int v1 l1, .Int v2 l2 => decide (v1 = v2) && decide (l1 = l2)
  | .Str v1 l1, .Str v2 l2 => decide (v1 = v2) && decide (l1 = l2)
  | .Call c1 a1 l1, .Call c2 a2 l2 =>
    beqTerm c1 c2 && beqTermList a1 a2 && decide (l1 = l2)
  | .Binary lh1 o1 rh1 l1, .Binary lh2 o2 rh2 l2 =>
    beqTerm lh1 lh2 && decide (o1 = o2) && beqTerm rh1 rh2
      && decide (l1 = l2)
  | .Function p1 v1 l1, .Function p2 v2 l2 =>
    decide (p1 = p2) && beqTerm v1 v2 && decide (l1 = l2)
  | .Let n1 v1 x1 l1, .Let n2 v2 x2 l2 =>
    decide (n1 = n2) && beqTerm v1 v2 && beqTerm x1 x2 && decide (l1 = l2)
  | .If c1 t1 o1 l1, .If c2 t2 o2 l2 =>
    beqTerm c1 c2 && beqTerm t1 t2 && beqTerm o1 o2 && decide (l1 = l2)
  | .Print v1 l1, .Print v2 l2 => beqTerm v1 v2 && decide (l1 = l2)
  | .First v1 l1, .First v2 l2 => beqTerm v1 v2 && decide (l1 = l2)
  | .Second v1 l1, .Second v2 l2 => beqTerm v1 v2 && decide (l1 = l2)
  | .Bool v1 l1, .Bool v2 l2 => decide (v1 = v2) && decide (l1 = l2)
  | .Tuple f1 s1 l1, .Tuple f2 s2 l2 =>
    beqTerm f1 f2 && beqTerm s1 s2 && decide (l1 = l2)
  | .Var v1, .Var v2 => decide (v1 = v2)
  | _, _ => false

/-- Component-wise equality of argument lists (derived `PartialEq` of
`Vec<Term>`). -/
def beqTermList : List Term → List Term → Bool
  | [], [] => true
  | a :: as, b :: bs => beqTerm a b && beqTermList as bs
  | _, _ => false

end

set_option maxHeartbeats 4000000

mutual

theorem beqTerm_iff : (a b : Term) → (beqTerm a b = true ↔ a = b)
  | a, b => by
    cases a <;> cases b
    case Call.Call c1 a1 l1 c2 a2 l2 =>
      simp [beqTerm, and_assoc, beqTerm_iff c1 c2, beqTermList_iff a1 a2]
    case Binary.Binary lh1 o1 rh1 l1 lh2 o2 rh2 l2 =>
      simp [beqTerm, and_assoc, beqTerm_iff lh1 lh2, beqTerm_iff rh1 rh2]
    case Function.Function p1 v1 l1 p2 v2 l2 =>
      simp [beqTerm, and_assoc, beqTerm_iff v1 v2]
    case Let.Let n1 v1 x1 l1 n2 v2 x2 l2 =>
      simp [beqTerm, and_assoc, beqTerm_iff v1 v2, beqTerm_iff x1 x2]
    case If.If c1 t1 o1 l1 c2 t2 o2 l2 =>
      simp [beqTerm, and_assoc, beqTerm_iff c1 c2, beqTerm_iff t1 t2,
        beqTerm_iff o1 o2]
    case Print.Print v1 l1 v2 l2 =>
      simp [beqTerm, and_assoc, beqTerm_iff v1 v2]
    case First.First v1 l1 v2 l2 =>
      simp [beqTerm, and_assoc, beqTerm_iff v1 v2]
    case Second.Second v1 l1 v2 l2 =>
      simp [beqTerm, and_assoc, beqTerm_iff v1 v2]
    case Tuple.Tuple f1 s1 l1 f2 s2 l2 =>
      simp [beqTerm, and_assoc, beqTerm_iff f1 f2, beqTerm_iff s1 s2]
    all_goals simp [beqTerm, and_assoc]

theorem beqTermList_iff : (as bs : List Term) →
    (beqTermList as bs = true ↔ as = bs)
  | [], [] => by simp [beqTermList]
  | a :: as, b :: bs => by
    simp [beqTermList, beqTerm_iff a b, beqTermList_iff as bs]
  | [], _ :: _ => by simp [beqTermList]
  | _ :: _, [] => by simp [beqTermList]

end

instance : DecidableEq Term := fun a b => decidable_of_iff _ (beqTerm_iff a b)

/-- `Element::location` for `Term` (src/ast.rs): extract the node's
location. -/
def Term.location : Term → Location
  | .Error _ _ l => l
  | .Int _ l => l
  | .Str _ l => l
  | .Function _ _ l => l
  | .Call _ _ l => l
  | .Var v => v.location
  | .Binary _ _ _ l => l
  | .Print _ l => l
  | .First _ l => l
  | .Second _ l => l
  | .Let _ _ _ l => l
  | .If _ _ _ l => l
  | .Bool _ l => l
  | .Tuple _ _ l => l

/-- `Env` from src/env.rs: a frame of variables plus an optional parent. -/
inductive Env where
  | mk (parent : Option Env) (vars : List (String × Term))
deriving Repr

/-- The derived `PartialEq` of `Env` (src/env.rs): compare the variable
maps and the parent chains. -/
def Env.beq : Env → Env → Bool
  | .mk p1 v1, .mk p2 v2 =>
    (match p1, p2 with
      | none, none => true
      | some a, some b => Env.beq a b
      | _, _ => false)
      && decide (v1 = v2)

theorem Env.beq_iff : (a b : Env) → (Env.beq a b = true ↔ a = b)
  | .mk p1 v1, .mk p2 v2 => by
    cases p1 <;> cases p2 <;>
      simp [Env.beq]
    case some.some a b => simp [Env.beq_iff a b]

instance : DecidableEq Env := fun a b => decidable_of_iff _ (Env.beq_iff a b)

/-- `Env::new` (an empty root frame). -/
def Env.new : Env := .mk none []

/-- `Env::extend`: a new empty frame whose parent is `parent`. -/
def Env.extend (parent : Env) : Env := .mk (some parent) []

/-- `Env::get`: local frame first, then the parent chain (the root
returns `none` on a miss). -/
def Env.get : Env → String → Option Term
  | .mk none vars, name =>
    match vars.lookup name with
    | some t => some t
    | none => none
  | .mk (some p) vars, name =>
    match vars.lookup name with
    | some t => some t
    | none => p.get name

/-- Unfolding of `Env.get` for a frame with a symbolic parent. -/
theorem Env.get_mk (p : Option Env) (vars : List (String × Term))
    (name : String) :
    Env.get (.mk p vars) name
      = (match vars.lookup name with
        | some t => some t
        | none =>
          match p with
          | some q => q.get name
          | none => none) := by
  cases p <;> cases hl : vars.lookup name <;> simp [Env.get, hl]

/-- `Env::set`: if `name` is already bound in the local frame the store is
left unchanged (first write wins); otherwise insert.  (The Rust function
also returns an `Option<Term>`, which every caller ignores.) -/
def Env.set : Env → String → Term → Env
  | .mk parent vars, name, term =>
    match vars.lookup name with
    | some _ => .mk parent vars
    | none => .mk parent ((name, term) :: vars)

/-- The outcome of running the evaluator: a normal return (final
environment, the lines printed by `Print` in order, and the result term),
a host panic (zero divisor in `wrapping_div`/`wrapping_rem`), or fuel
exhaustion (a model artifact standing for a still-running computation;
the Rust function has no such case). -/
inductive Result where
  | ok (env : Env) (out : List String) (term : Term)
  | panic
  | timeout
deriving DecidableEq, Repr

/-- Prepend already-printed lines to a later result. -/
def Result.withOut (pre : List String) : Result → Result
  | .ok e o t => .ok e (pre ++ o) t
  | r => r

/-- Reduce an integer into the `i32` range `[-2^31, 2^31)`, the
two's-complement wrap-around that Rust's `wrapping_*` methods perform. -/
def wrap32 (x : Int) : Int := (x + 2 ^ 31) % 2 ^ 32 - 2 ^ 31

/-- `i32::wrapping_add`. -/
def wrapping_add (a b : Int) : Int := wrap32 (a + b)

/-- `i32::wrapping_sub`. -/
def wrapping_sub (a b : Int) : Int := wrap32 (a - b)

/-- `i32::wrapping_mul`. -/
def wrapping_mul (a b : Int) : Int := wrap32 (a * b)

/-- `i32::wrapping_div`: truncated division; wraps on `i32::MIN / -1`;
`none` models the Rust panic on a zero divisor. -/
def wrapping_div (a b : Int) : Option Int :=
  if b = 0 then none else some (wrap32 (a.tdiv b))

/-- `i32::wrapping_rem`: truncated remainder; `none` models the Rust
panic on a zero divisor. -/
def wrapping_rem (a b : Int) : Option Int :=
  if b = 0 then none else some (wrap32 (a.tmod b))

/-- `error` from src/eval.rs: an `Error` already passes through
unchanged; any other term is rewritten into an `Error` carrying the
term's own location (the Rust function extracts `location` from each
variant, which is what `Term.location` does). -/
def error (term : Term) (message : String) (full_text : String) : Term :=
  match term with
  | .Error m f l => .Error m f l
  | t => .Error message full_text t.location

/-- `Evaluator::eval_if`.  `ev` is the recursive evaluator. -/
def eval_if (ev : Env → Term → Result) (env : Env)
    (condition then_ otherwise : Term) : Result :=
  match ev env condition with
  | .ok env1 out1 c =>
    match c with
    | .Bool true _ => (ev env1 then_).withOut out1
    | .Bool false _ => (ev env1 otherwise).withOut out1
    | t => .ok env1 out1
        (error t "Unexpected term" "Expected condition of type \"Bool\"")
  | r => r

/-- The argument-binding loop of `Evaluator::eval_call`: each argument is
evaluated in the (growing) child environment, then bound to its
parameter with `Env::set`.  `.error r` aborts with a panic/timeout from
an argument. -/
def bindArgs (ev : Env → Term → Result) (env : Env) (out : List String) :
    List (Term × Var) → Except Result (Env × List String)
  | [] => .ok (env, out)
  | (arg, param) :: rest =>
    match ev env arg with
    | .ok env1 out1 value =>
      bindArgs ev (env1.set param.text value) (out ++ out1) rest
    | r => .error r

/-- `Evaluator::eval_call`: evaluate the callee; require a `Function`;
check arity; bind arguments in a fresh child frame extending the
call-site environment; evaluate the body there.  The child frame is
discarded afterwards and `env1` (the call-site environment) is returned:
`Env::set` only ever writes to the local frame, so the Rust caller's
environment is unchanged by the call. -/
def eval_call (ev : Env → Term → Result) (env : Env) (callee : Term)
    (arguments : List Term) (location : Location) : Result :=
  match ev env callee with
  | .ok env1 out1 c =>
    match c with
    | .Function parameters value floc =>
      let expected_args := parameters.length
      let found_args := arguments.length
      if expected_args ≠ found_args then
        .ok env1 out1 (error
          (.Call (.Function parameters value floc) arguments location)
          "Argument count mismatch"
          ("Expected " ++ toString expected_args ++ " arguments, found "
            ++ toString found_args))
      else
        match bindArgs ev (Env.extend env1) [] (arguments.zip parameters) with
        | .error r => r
        | .ok (cenv, outA) =>
          match ev cenv value with
          | .ok _ out2 res => .ok env1 (out1 ++ outA ++ out2) res
          | r => r
    | t => .ok env1 out1
        (error t "Unexpected term" "Expected function body or reference")
  | r => r

/-- `Evaluator::eval_eq`: evaluate both operands and compare them with
the derived structural equality (`beqTerm`), locations included. -/
def eval_eq (ev : Env → Term → Result) (env : Env) (lhs rhs : Term)
    (location : Location) : Result :=
  match ev env lhs with
  | .ok env1 out1 lt =>
    match ev env1 rhs with
    | .ok env2 out2 rt => .ok env2 (out1 ++ out2) (.Bool (beqTerm lt rt) location)
    | r => r
  | r => r

/-- `Evaluator::eval_neq`. -/
def eval_neq (ev : Env → Term → Result) (env : Env) (lhs rhs : Term)
    (location : Location) : Result :=
  match ev env lhs with
  | .ok env1 out1 lt =>
    match ev env1 rhs with
    | .ok env2 out2 rt => .ok env2 (out1 ++ out2) (.Bool (!beqTerm lt rt) location)
    | r => r
  | r => r

/-- `Evaluator::eval_let`: evaluate the value eagerly; unless the name is
the discard identifier `"_"`, store it in the current frame; evaluate
the continuation. -/
def eval_let (ev : Env → Term → Result) (env : Env) (name : Var)
    (value next : Term) : Result :=
  match ev env value with
  | .ok env1 out1 v =>
    let env2 := if name.text ≠ "_" then env1.set name.text v else env1
    (ev env2 next).withOut out1
  | r => r

/-- `Evaluator::eval_print`: print `Int`/`Str`/`Bool` values and the
literal `<function>` for functions; pass errors through unchanged; any
other term is not a first-class value. -/
def eval_print (ev : Env → Term → Result) (env : Env) (value : Term) : Result :=
  match ev env value with
  | .ok env1 out1 t =>
    match t with
    | .Error .. => .ok env1 out1 t
    | .Int v _ => .ok env1 (out1 ++ [toString v]) t
    | .Str s _ => .ok env1 (out1 ++ [s]) t
    | .Bool b _ => .ok env1 (out1 ++ [toString b]) t
    | .Function .. => .ok env1 (out1 ++ ["<function>"]) t
    | _ => .ok env1 out1
        (error t "Unexpected term" "The term is not a first class value")
  | r => r

/-- `Evaluator::eval_first`. -/
def eval_first (ev : Env → Term → Result) (env : Env) (value : Term) : Result :=
  match ev env value with
  | .ok env1 out1 t =>
    match t with
    | .Tuple f _ _ => (ev env1 f).withOut out1
    | _ => .ok env1 out1
        (error t "Unexpected term" "The first function expects a tuple")
  | r => r

/-- `Evaluator::eval_second`. -/
def eval_second (ev : Env → Term → Result) (env : Env) (value : Term) : Result :=
  match ev env value with
  | .ok env1 out1 t =>
    match t with
    | .Tuple _ s _ => (ev env1 s).withOut out1
    | _ => .ok env1 out1
        (error t "Unexpected term" "The second function expects a tuple")
  | r => r

/-- `Evaluator::eval_tuple`: evaluate both components eagerly, left to
right. -/
def eval_tuple (ev : Env → Term → Result) (env : Env) (first second : Term)
    (location : Location) : Result :=
  match ev env first with
  | .ok env1 out1 f =>
    match ev env1 second with
    | .ok env2 out2 s => .ok env2 (out1 ++ out2) (.Tuple f s location)
    | r => r
  | r => r

/-- `Evaluator::eval_var`: look the name up through the scope chain; a
found term is evaluated again; a miss is an undefined-variable error. -/
def eval_var (ev : Env → Term → Result) (env : Env) (text : String)
    (location : Location) : Result :=
  match env.get text with
  | some term => ev env term
  | none => .ok env [] (error (.Var ⟨text, location⟩) "Undefined variable"
      ("Undefined variable \"" ++ text ++ "\""))

/-- The body that `impl_binary_op!` expands to for the operators whose
operand kinds are `(Int, Int)` (`Add,Sub,Mul,Div,Rem,Lt,Gt,Lte,Gte`):
evaluate `lhs`; return it unchanged if it is an `Error`; require `Int`;
then the same for `rhs`; finally combine with `out` (`none` models the
panic of a zero-divisor `wrapping_div`/`wrapping_rem`). -/
def impl_binary_op_int (ev : Env → Term → Result) (env : Env)
    (lhs rhs : Term) (out : Int → Int → Option Term) : Result :=
  match ev env lhs with
  | .ok env1 out1 lt =>
    match lt with
    | .Error m f l => .ok env1 out1 (.Error m f l)
    | .Int lv _ =>
      match ev env1 rhs with
      | .ok env2 out2 rt =>
        match rt with
        | .Error m f l => .ok env2 (out1 ++ out2) (.Error m f l)
        | .Int rv _ =>
          match out lv rv with
          | some t => .ok env2 (out1 ++ out2) t
          | none => .panic
        | t => .ok env2 (out1 ++ out2)
            (error t "Unexpected right operand" "Expected operand of type \"Int\"")
      | r => r
    | t => .ok env1 out1
        (error t "Unexpected left operand" "Expected operand of type \"Int\"")
  | r => r

/-- The body that `impl_binary_op!` expands to for `And`/`Or`, whose
operand kinds are `(Bool, Bool)`.  Both operands are always evaluated:
there is no boolean short-circuit, only the error short-circuit. -/
def impl_binary_op_bool (ev : Env → Term → Result) (env : Env)
    (lhs rhs : Term) (out : Bool → Bool → Term) : Result :=
  match ev env lhs with
  | .ok env1 out1 lt =>
    match lt with
    | .Error m f l => .ok env1 out1 (.Error m f l)
    | .Bool lv _ =>
      match ev env1 rhs with
      | .ok env2 out2 rt =>
        match rt with
        | .Error m f l => .ok env2 (out1 ++ out2) (.Error m f l)
        | .Bool rv _ => .ok env2 (out1 ++ out2) (out lv rv)
        | t => .ok env2 (out1 ++ out2)
            (error t "Unexpected right operand" "Expected operand of type \"Bool\"")
      | r => r
    | t => .ok env1 out1
        (error t "Unexpected left operand" "Expected operand of type \"Bool\"")
  | r => r

/-- `eval_add` (from `impl_binary_op!`): `i32::wrapping_add`. -/
def eval_add (ev : Env → Term → Result) (env : Env) (lhs rhs : Term)
    (location : Location) : Result :=
  impl_binary_op_int ev env lhs rhs
    (fun a b => some (.Int (wrapping_add a b) location))

/-- `eval_sub` (from `impl_binary_op!`): `i32::wrapping_sub`. -/
def eval_sub (ev : Env → Term → Result) (env : Env) (lhs rhs : Term)
    (location : Location) : Result :=
  impl_binary_op_int ev env lhs rhs
    (fun a b => some (.Int (wrapping_sub a b) location))

/-- `eval_mul` (from `impl_binary_op!`): `i32::wrapping_mul`. -/
def eval_mul (ev : Env → Term → Result) (env : Env) (lhs rhs : Term)
    (location : Location) : Result :=
  impl_binary_op_int ev env lhs rhs
    (fun a b => some (.Int (wrapping_mul a b) location))

/-- `eval_div` (from `impl_binary_op!`): `i32::wrapping_div`, which
panics on a zero divisor. -/
def eval_div (ev : Env → Term → Result) (env : Env) (lhs rhs : Term)
    (location : Location) : Result :=
  impl_binary_op_int ev env lhs rhs
    (fun a b => (wrapping_div a b).map (fun v => Term.Int v location))

/-- `eval_rem` (from `impl_binary_op!`): `i32::wrapping_rem`, which
panics on a zero divisor. -/
def eval_rem (ev : Env → Term → Result) (env : Env) (lhs rhs : Term)
    (location : Location) : Result :=
  impl_binary_op_int ev env lhs rhs
    (fun a b => (wrapping_rem a b).map (fun v => Term.Int v location))

/-- `eval_lt` (from `impl_binary_op!`). -/
def eval_lt (ev : Env → Term → Result) (env : Env) (lhs rhs : Term)
    (location : Location) : Result :=
  impl_binary_op_int ev env lhs rhs
    (fun a b => some (.Bool (decide (a < b)) location))

/-- `eval_gt` (from `impl_binary_op!`). -/
def eval_gt (ev : Env → Term → Result) (env : Env) (lhs rhs : Term)
    (location : Location) : Result :=
  impl_binary_op_int ev env lhs rhs
    (fun a b => some (.Bool (decide (b < a)) location))

/-- `eval_lte` (from `impl_binary_op!`). -/
def eval_lte (ev : Env → Term → Result) (env : Env) (lhs rhs : Term)
    (location : Location) : Result :=
  impl_binary_op_int ev env lhs rhs
    (fun a b => some (.Bool (decide (a ≤ b)) location))

/-- `eval_gte` (from `impl_binary_op!`). -/
def eval_gte (ev : Env → Term → Result) (env : Env) (lhs rhs : Term)
    (location : Location) : Result :=
  impl_binary_op_int ev env lhs rhs
    (fun a b => some (.Bool (decide (b ≤ a)) location))

/-- `eval_or` (from `impl_binary_op!`). -/
def eval_or (ev : Env → Term → Result) (env : Env) (lhs rhs : Term)
    (location : Location) : Result :=
  impl_binary_op_bool ev env lhs rhs (fun a b => .Bool (a || b) location)

/-- `eval_and` (from `impl_binary_op!`). -/
def eval_and (ev : Env → Term → Result) (env : Env) (lhs rhs : Term)
    (location : Location) : Result :=
  impl_binary_op_bool ev env lhs rhs (fun a b => .Bool (a && b) location)

/-- `Evaluator::eval_binary`: dispatch on the operator. -/
def eval_binary (ev : Env → Term → Result) (env : Env) (lhs : Term)
    (op : BinaryOp) (rhs : Term) (location : Location) : Result :=
  match op with
  | .Add => eval_add ev env lhs rhs location
  | .Sub => eval_sub ev env lhs rhs location
  | .Mul => eval_mul ev env lhs rhs location
  | .Div => eval_div ev env lhs rhs location
  | .Rem => eval_rem ev env lhs rhs location
  | .Eq => eval_eq ev env lhs rhs location
  | .Neq => eval_neq ev env lhs rhs location
  | .Lt => eval_lt ev env lhs rhs location
  | .Gt => eval_gt ev env lhs rhs location
  | .Lte => eval_lte ev env lhs rhs location
  | .Gte => eval_gte ev env lhs rhs location
  | .And => eval_and ev env lhs rhs location
  | .Or => eval_or ev env lhs rhs location

/-- `Evaluator::eval`, fuel-indexed.  `Int`, `Str`, `Bool`, `Error` and
`Function` are self-evaluating; every other node dispatches to its
handler, which recurses with one unit of fuel less. -/
def eval : Nat → Env → Term → Result
  | 0, _, _ => .timeout
  | n + 1, env, term =>
    match term with
    | .Int v l => .ok env [] (.Int v l)
    | .Str v l => .ok env [] (.Str v l)
    | .Bool v l => .ok env [] (.Bool v l)
    | .Error m f l => .ok env [] (.Error m f l)
    | .Function p v l => .ok env [] (.Function p v l)
    | .If c t o _ => eval_if (eval n) env c t o
    | .Let nm v x _ => eval_let (eval n) env nm v x
    | .Var v => eval_var (eval n) env v.text v.location
    | .Call c a l => eval_call (eval n) env c a l
    | .First v _ => eval_first (eval n) env v
    | .Print v _ => eval_print (eval n) env v
    | .Tuple f s l => eval_tuple (eval n) env f s l
    | .Binary lh op rh l => eval_binary (eval n) env lh op rh l
    | .Second v _ => eval_second (eval n) env v

/-- A fully evaluated value: `Int`, `Str`, `Bool`, `Function`, `Error`,
or a `Tuple` whose components are themselves values.  These are the only
terms `eval` ever produces (given a value-only environment) and hence the
only terms `Let`/`Call` ever store. -/
def isValue : Term → Bool
  | .Int .. => true
  | .Str .. => true
  | .Bool .. => true
  | .Error .. => true
  | .Function .. => true
  | .Tuple f s _ => isValue f && isValue s
  | _ => false

/-- The five self-evaluating kinds of the `eval` match in src/eval.rs:
`Int`, `Str`, `Bool`, `Error`, `Function` (tuples are re-traversed, not
returned by the first five arms). -/
def selfEvaluating : Term → Bool
  | .Int .. => true
  | .Str .. => true
  | .Bool .. => true
  | .Error .. => true
  | .Function .. => true
  | _ => false

/-- Nesting depth of tuples: the fuel a value needs to re-evaluate to
itself. -/
def tupleDepth : Term → Nat
  | .Tuple f s _ => max (tupleDepth f) (tupleDepth s) + 1
  | _ => 0

/-- Every binding in every frame of the chain is a fully evaluated
value. -/
def envValues : Env → Bool
  | .mk none vars => vars.all (fun p => isValue p.2)
  | .mk (some p) vars => vars.all (fun p => isValue p.2) && envValues p

/-- Unfolding of `envValues` for a frame with a symbolic parent. -/
theorem envValues_mk (p : Option Env) (vars : List (String × Term)) :
    envValues (.mk p vars)
      = (vars.all (fun q => isValue q.2)
        && (match p with
            | some q => envValues q
            | none => true)) := by
  cases p <;> simp [envValues]

/-- The factorial function literal of the spec scenario:
`fn (n) => if n <= 1 { 1 } else { n * factorial(n - 1) }` (all locations
defaulted). -/
def factorialFn : Term :=
  .Function [⟨"n", dloc⟩]
    (.If (.Binary (.Var ⟨"n", dloc⟩) .Lte (.Int 1 dloc) dloc)
      (.Int 1 dloc)
      (.Binary (.Var ⟨"n", dloc⟩) .Mul
        (.Call (.Var ⟨"factorial", dloc⟩)
          [.Binary (.Var ⟨"n", dloc⟩) .Sub (.Int 1 dloc) dloc] dloc)
        dloc)
      dloc)
    dloc

/-- The spec scenario `let factorial = fn (n) => ...; factorial(4)`. -/
def factorialProg : Term :=
  .Let ⟨"factorial", dloc⟩ factorialFn
    (.Call (.Var ⟨"factorial", dloc⟩) [.Int 4 dloc] dloc) dloc

/-- `fn () => x`: a function whose body is a free variable. -/
def freeVarFn : Term := .Function [] (.Var ⟨"x", dloc⟩) dloc

/-- `fn (x) => f()`: binds `x`, then calls `f`. -/
def callerFn : Term :=
  .Function [⟨"x", dloc⟩] (.Call (.Var ⟨"f", dloc⟩) [] dloc) dloc

/-- `let f = fn () => x; let g = fn (x) => f(); g(k)`.  Under dynamic
scoping the free `x` in `f`'s body resolves to `g`'s parameter at the
call site; under lexical scoping it would be an undefined variable. -/
def dynScopeProg (k : Int) : Term :=
  .Let ⟨"f", dloc⟩ freeVarFn
    (.Let ⟨"g", dloc⟩ callerFn
      (.Call (.Var ⟨"g", dloc⟩) [.Int k dloc] dloc) dloc) dloc

/-- `let x = 1; let x = print(2); x`: the second `let` still evaluates
its value (printing `2`) but does not overwrite the stored binding. -/
def letRebindPrintProg : Term :=
  .Let ⟨"x", dloc⟩ (.Int 1 dloc)
    (.Let ⟨"x", dloc⟩ (.Print (.Int 2 dloc) dloc) (.Var ⟨"x", dloc⟩) dloc)
    dloc

/-- `beqTerm` agrees with propositional equality (so the `==` of
`eval_eq`/`eval_neq` is exactly structural equality of `Term`). -/
theorem beqTerm_eq_decide (a b : Term) : beqTerm a b = decide (a = b) := by
  by_cases h : a = b
  · subst h
    simp [(beqTerm_iff a a).mpr rfl]
  · simp [h]
    exact Bool.eq_false_iff.mpr (fun hb => h ((beqTerm_iff a b).mp hb))

/-- A value re-evaluates to itself, leaving the environment untouched and
printing nothing, given fuel exceeding its tuple depth. -/
theorem eval_value_id : (n : Nat) → (env : Env) → (v : Term) →
    isValue v = true → tupleDepth v < n → eval n env v = .ok env [] v
  | 0, _, _, _, hd => absurd hd (Nat.not_lt_zero _)
  | n + 1, env, .Int v l, _, _ => by simp [eval]
  | n + 1, env, .Str v l, _, _ => by simp [eval]
  | n + 1, env, .Bool v l, _, _ => by simp [eval]
  | n + 1, env, .Error m f l, _, _ => by simp [eval]
  | n + 1, env, .Function p b l, _, _ => by simp [eval]
  | n + 1, env, .Tuple f s l, hv, hd => by
    have hf : isValue f = true := by
      simp [isValue, Bool.and_eq_true] at hv; exact hv.1
    have hs : isValue s = true := by
      simp [isValue, Bool.and_eq_true] at hv; exact hv.2
    have hdf : tupleDepth f < n := by simp [tupleDepth] at hd; omega
    have hds : tupleDepth s < n := by simp [tupleDepth] at hd; omega
    simp [eval, eval_tuple, eval_value_id n env f hf hdf,
      eval_value_id n env s hs hds]
  | _ + 1, _, .Call .., hv, _ => by simp [isValue] at hv
  | _ + 1, _, .Binary .., hv, _ => by simp [isValue] at hv
  | _ + 1, _, .Let .., hv, _ => by simp [isValue] at hv
  | _ + 1, _, .If .., hv, _ => by simp [isValue] at hv
  | _ + 1, _, .Print .., hv, _ => by simp [isValue] at hv
  | _ + 1, _, .First .., hv, _ => by simp [isValue] at hv
  | _ + 1, _, .Second .., hv, _ => by simp [isValue] at hv
  | _ + 1, _, .Var .., hv, _ => by simp [isValue] at hv

/-- A self-evaluating term (the five value kinds of the `eval` match)
evaluates to itself with any positive fuel. -/
theorem eval_selfEval_id (n : Nat) (env : Env) (t : Term)
    (h : selfEvaluating t = true) : eval (n + 1) env t = .ok env [] t := by
  have hv : isValue t = true := by
    cases t <;> simp_all [selfEvaluating, isValue]
  have hd : tupleDepth t = 0 := by
    cases t <;> simp_all [selfEvaluating, tupleDepth]
  exact eval_value_id (n + 1) env t hv (by omega)

/-- C9: for every environment `e` and every term of kind `Int`, `Str`,
`Bool`, `Function` or `Error`, `eval e t = t`: the term is returned
unchanged, the environment is unmodified, and nothing is printed. -/
theorem c9_eval_identity_on_values (n : Nat) (env : Env) (t : Term)
    (h : selfEvaluating t = true) :
    eval (n + 1) env t = .ok env [] t :=
  eval_selfEval_id n env t h

/-- Witness for C9 at `Int 7`. -/
theorem c9_eval_identity_on_values_witness :
    selfEvaluating (.Int 7 dloc) = true
    ∧ eval 1 Env.new (.Int 7 dloc) = .ok Env.new [] (.Int 7 dloc) :=
  ⟨rfl, c9_eval_identity_on_values 0 Env.new (.Int 7 dloc) rfl⟩

/-- C4: `Add`/`Sub`/`Mul` on `Int` operands wrap around modulo `2^32`
(`wrap32`); `2147483647 + 1` evaluates to `-2147483648`; `Div`/`Rem`
never panic when the divisor is non-zero, and `i32::MIN / -1` wraps back
to `i32::MIN`. -/
theorem c4_arithmetic_wrapping (n : Nat) (env : Env) (a b : Int)
    (la lb loc : Location)
    (ha : -2147483648 ≤ a ∧ a < 2147483648)
    (hb : -2147483648 ≤ b ∧ b < 2147483648) :
    (eval (n + 2) env (.Binary (.Int a la) .Add (.Int b lb) loc)
      = .ok env [] (.Int (wrap32 (a + b)) loc))
    ∧ (eval (n + 2) env (.Binary (.Int a la) .Sub (.Int b lb) loc)
      = .ok env [] (.Int (wrap32 (a - b)) loc))
    ∧ (eval (n + 2) env (.Binary (.Int a la) .Mul (.Int b lb) loc)
      = .ok env [] (.Int (wrap32 (a * b)) loc))
    ∧ (eval (n + 2) env (.Binary (.Int 2147483647 la) .Add (.Int 1 lb) loc)
      = .ok env [] (.Int (-2147483648) loc))
    ∧ (b ≠ 0 →
        (eval (n + 2) env (.Binary (.Int a la) .Div (.Int b lb) loc)
          = .ok env [] (.Int (wrap32 (a.tdiv b)) loc))
        ∧ eval (n + 2) env (.Binary (.Int a la) .Div (.Int b lb) loc) ≠ .panic
        ∧ (eval (n + 2) env (.Binary (.Int a la) .Rem (.Int b lb) loc)
          = .ok env [] (.Int (wrap32 (a.tmod b)) loc))
        ∧ eval (n + 2) env (.Binary (.Int a la) .Rem (.Int b lb) loc) ≠ .panic)
    ∧ (eval (n + 2) env
        (.Binary (.Int (-2147483648) la) .Div (.Int (-1) lb) loc)
      = .ok env [] (.Int (-2147483648) loc)) := by
  have h32 : wrap32 (2147483648 : Int) = -2147483648 := by decide
  refine ⟨?_, ?_, ?_, ?_, fun h0 => ⟨?_, ?_, ?_, ?_⟩, ?_⟩
  · simp [eval, eval_binary, eval_add, impl_binary_op_int, wrapping_add]
  · simp [eval, eval_binary, eval_sub, impl_binary_op_int, wrapping_sub]
  · simp [eval, eval_binary, eval_mul, impl_binary_op_int, wrapping_mul]
  · simp [eval, eval_binary, eval_add, impl_binary_op_int, wrapping_add, h32]
  · simp [eval, eval_binary, eval_div, impl_binary_op_int, wrapping_div, h0]
  · simp [eval, eval_binary, eval_div, impl_binary_op_int, wrapping_div, h0]
  · simp [eval, eval_binary, eval_rem, impl_binary_op_int, wrapping_rem, h0]
  · simp [eval, eval_binary, eval_rem, impl_binary_op_int, wrapping_rem, h0]
  · simp [eval, eval_binary, eval_div, impl_binary_op_int, wrapping_div, h32]

/-- Witness for C4 at `a = 2147483647`, `b = 1`. -/
theorem c4_arithmetic_wrapping_witness :
    eval 2 Env.new (.Binary (.Int 2147483647 dloc) .Add (.Int 1 dloc) dloc)
      = .ok Env.new [] (.Int (wrap32 (2147483647 + 1)) dloc) :=
  (c4_arithmetic_wrapping 0 Env.new 2147483647 1 dloc dloc dloc
    (by decide) (by decide)).1

/-- C5: a `Div` or `Rem` whose operands evaluate to `Int` values with a
zero divisor does not return any term: the model's `eval` yields
`.panic`, the host-level failure outside the language's error
taxonomy. -/
theorem c5_zero_divisor_panics (n : Nat) (env env1 env2 : Env)
    (o1 o2 : List String) (lhs rhs : Term) (a : Int) (la lr loc : Location)
    (hl : eval n env lhs = .ok env1 o1 (.Int a la))
    (hr : eval n env1 rhs = .ok env2 o2 (.Int 0 lr)) :
    eval (n + 1) env (.Binary lhs .Div rhs loc) = .panic
    ∧ eval (n + 1) env (.Binary lhs .Rem rhs loc) = .panic := by
  constructor
  · simp [eval, eval_binary, eval_div, impl_binary_op_int, hl, hr,
      wrapping_div]
  · simp [eval, eval_binary, eval_rem, impl_binary_op_int, hl, hr,
      wrapping_rem]

/-- Witness for C5 at `2 / 0`. -/
theorem c5_zero_divisor_panics_witness :
    eval 1 Env.new (.Int 2 dloc) = .ok Env.new [] (.Int 2 dloc)
    ∧ eval 2 Env.new (.Binary (.Int 2 dloc) .Div (.Int 0 dloc) dloc) = .panic :=
  ⟨rfl, (c5_zero_divisor_panics 1 Env.new Env.new Env.new [] []
    (.Int 2 dloc) (.Int 0 dloc) 2 dloc dloc dloc rfl rfl).1⟩

/-- C1 (amended): for the 11 operators other than `Eq`/`Neq`, a left
operand that evaluates to an `Error` makes the whole `Binary` evaluate to
that same error, with the right operand never evaluated (the result
environment and output are exactly those of the left evaluation). -/
theorem c1_binary_error_short_circuit (n : Nat) (env env1 : Env)
    (o1 : List String) (lhs rhs : Term) (m ft : String) (le loc : Location)
    (op : BinaryOp) (hne : op ≠ .Eq) (hnn : op ≠ .Neq)
    (hl : eval n env lhs = .ok env1 o1 (.Error m ft le)) :
    eval (n + 1) env (.Binary lhs op rhs loc) = .ok env1 o1 (.Error m ft le) := by
  cases op
  case Eq => exact absurd rfl hne
  case Neq => exact absurd rfl hnn
  all_goals simp [eval, eval_binary, eval_add, eval_sub, eval_mul, eval_div,
    eval_rem, eval_lt, eval_gt, eval_lte, eval_gte, eval_and, eval_or,
    impl_binary_op_int, impl_binary_op_bool, hl]

/-- Witness for C1 (amended) at `Error + print(1)`: the error passes
through and nothing is printed. -/
theorem c1_binary_error_short_circuit_witness :
    eval 1 Env.new (.Error "E" "F" dloc) = .ok Env.new [] (.Error "E" "F" dloc)
    ∧ eval 2 Env.new
        (.Binary (.Error "E" "F" dloc) .Add (.Print (.Int 1 dloc) dloc) dloc)
      = .ok Env.new [] (.Error "E" "F" dloc) :=
  ⟨rfl, c1_binary_error_short_circuit 1 Env.new Env.new [] (.Error "E" "F" dloc)
    (.Print (.Int 1 dloc) dloc) "E" "F" dloc dloc .Add
    (by decide) (by decide) rfl⟩

/-- Counterexample to C1 as stated: with `op = Eq`, a left operand that
evaluates to an `Error` does **not** short-circuit — the right operand
`print(1)` is evaluated (the output `["1"]` appears), and the result is
`Bool false`, not the error. -/
theorem c1_eq_no_short_circuit_counterexample :
    eval 9 Env.new
      (.Binary (.Error "E" "F" dloc) .Eq (.Print (.Int 1 dloc) dloc) dloc)
      = .ok Env.new ["1"] (.Bool false dloc)
    ∧ (Term.Bool false dloc) ≠ (.Error "E" "F" dloc) := by
  refine ⟨by decide, by decide⟩

/-- One-step unfolding of `eval` on a `Let` node (keeps `eval n` folded). -/
theorem eval_let_step (m : Nat) (e : Env) (nm : Var) (v nxt : Term)
    (lc : Location) :
    eval (m + 1) e (.Let nm v nxt lc) = eval_let (eval m) e nm v nxt := rfl

/-- One-step unfolding of `eval` on a `Var` node. -/
theorem eval_var_step (m : Nat) (e : Env) (vv : Var) :
    eval (m + 1) e (.Var vv) = eval_var (eval m) e vv.text vv.location := rfl

/-- One-step unfolding of `eval` on an `If` node. -/
theorem eval_if_step (m : Nat) (e : Env) (c t o : Term) (lc : Location) :
    eval (m + 1) e (.If c t o lc) = eval_if (eval m) e c t o := rfl

/-- One-step unfolding of `eval` on a `Call` node. -/
theorem eval_call_step (m : Nat) (e : Env) (c : Term) (a : List Term)
    (lc : Location) :
    eval (m + 1) e (.Call c a lc) = eval_call (eval m) e c a lc := rfl

/-- One-step unfolding of `eval` on a `First` node. -/
theorem eval_first_step (m : Nat) (e : Env) (v : Term) (lc : Location) :
    eval (m + 1) e (.First v lc) = eval_first (eval m) e v := rfl

/-- One-step unfolding of `eval` on a `Second` node. -/
theorem eval_second_step (m : Nat) (e : Env) (v : Term) (lc : Location) :
    eval (m + 1) e (.Second v lc) = eval_second (eval m) e v := rfl

/-- One-step unfolding of `eval` on a `Print` node. -/
theorem eval_print_step (m : Nat) (e : Env) (v : Term) (lc : Location) :
    eval (m + 1) e (.Print v lc) = eval_print (eval m) e v := rfl

/-- One-step unfolding of `eval` on a `Tuple` node. -/
theorem eval_tuple_step (m : Nat) (e : Env) (f sx : Term) (lc : Location) :
    eval (m + 1) e (.Tuple f sx lc) = eval_tuple (eval m) e f sx lc := rfl

/-- One-step unfolding of `eval` on a `Binary` node. -/
theorem eval_binary_step (m : Nat) (e : Env) (lh : Term) (op : BinaryOp)
    (rh : Term) (lc : Location) :
    eval (m + 1) e (.Binary lh op rh lc) = eval_binary (eval m) e lh op rh lc := rfl


/-- C6: the error constructor is idempotent on `Error` terms, and when
the scrutinized sub-term of `If`, `Call`, `First`, `Second` or `Print`
evaluates to an `Error`, the whole expression evaluates to exactly that
error, message, full text and location intact. -/
theorem c6_error_idempotent_propagation (n : Nat) (env env1 : Env)
    (o1 : List String) (sub : Term) (m ft : String) (le : Location)
    (h : eval n env sub = .ok env1 o1 (.Error m ft le)) :
    (∀ m2 f2 l2 msg ftxt, error (.Error m2 f2 l2) msg ftxt = .Error m2 f2 l2)
    ∧ (∀ t e loc, eval (n + 1) env (.If sub t e loc)
        = .ok env1 o1 (.Error m ft le))
    ∧ (∀ args loc, eval (n + 1) env (.Call sub args loc)
        = .ok env1 o1 (.Error m ft le))
    ∧ (∀ loc, eval (n + 1) env (.First sub loc)
        = .ok env1 o1 (.Error m ft le))
    ∧ (∀ loc, eval (n + 1) env (.Second sub loc)
        = .ok env1 o1 (.Error m ft le))
    ∧ (∀ loc, eval (n + 1) env (.Print sub loc)
        = .ok env1 o1 (.Error m ft le)) := by
  refine ⟨fun _ _ _ _ _ => rfl, fun t e loc => ?_, fun args loc => ?_,
    fun loc => ?_, fun loc => ?_, fun loc => ?_⟩
  · simp [eval, eval_if, h, error]
  · simp [eval, eval_call, h, error]
  · simp [eval, eval_first, h, error]
  · simp [eval, eval_second, h, error]
  · simp [eval, eval_print, h]

/-- Witness for C6: an `Error` condition passes through an `If`
unchanged. -/
theorem c6_error_idempotent_propagation_witness :
    eval 1 Env.new (.Error "E" "F" dloc) = .ok Env.new [] (.Error "E" "F" dloc)
    ∧ eval 2 Env.new (.If (.Error "E" "F" dloc) (.Int 1 dloc) (.Int 2 dloc) dloc)
      = .ok Env.new [] (.Error "E" "F" dloc) :=
  ⟨rfl, (c6_error_idempotent_propagation 1 Env.new Env.new []
    (.Error "E" "F" dloc) "E" "F" dloc rfl).2.1 (.Int 1 dloc) (.Int 2 dloc) dloc⟩

/-- C8: `Eq`/`Neq` evaluate both operands and compare them by full
structural equality of the `Term` representation, locations included;
two `Int 1` values at different source locations compare unequal, and the
resulting `Bool` carries the `Binary` node's own location. -/
theorem c8_structural_equality_includes_location (n : Nat)
    (env env1 env2 : Env) (o1 o2 : List String) (lhs rhs t1 t2 : Term)
    (loc : Location)
    (hl : eval n env lhs = .ok env1 o1 t1)
    (hr : eval n env1 rhs = .ok env2 o2 t2) :
    (eval (n + 1) env (.Binary lhs .Eq rhs loc)
      = .ok env2 (o1 ++ o2) (.Bool (decide (t1 = t2)) loc))
    ∧ (eval (n + 1) env (.Binary lhs .Neq rhs loc)
      = .ok env2 (o1 ++ o2) (.Bool (!decide (t1 = t2)) loc))
    ∧ (∀ (a : Int) (l1 l2 : Location), l1 ≠ l2 →
        (eval (n + 2) env (.Binary (.Int a l1) .Eq (.Int a l2) loc)
          = .ok env [] (.Bool false loc))
        ∧ (eval (n + 2) env (.Binary (.Int a l1) .Neq (.Int a l2) loc)
          = .ok env [] (.Bool true loc))) := by
  refine ⟨?_, ?_, fun a l1 l2 hne => ⟨?_, ?_⟩⟩
  · simp [eval, eval_binary, eval_eq, hl, hr, beqTerm_eq_decide]
  · simp [eval, eval_binary, eval_neq, hl, hr, beqTerm_eq_decide]
  · simp [eval, eval_binary, eval_eq, beqTerm, hne]
  · simp [eval, eval_binary, eval_neq, beqTerm, hne]

/-- Witness for C8: `Int 1` at offset 0 versus `Int 1` at offset 1. -/
theorem c8_structural_equality_includes_location_witness :
    eval 3 Env.new
      (.Binary (.Int 1 ⟨0, 0, ""⟩) .Eq (.Int 1 ⟨0, 1, ""⟩) dloc)
      = .ok Env.new [] (.Bool false dloc) := by
  have h := (c8_structural_equality_includes_location 1 Env.new Env.new Env.new
    [] [] (.Int 1 ⟨0, 0, ""⟩) (.Int 1 ⟨0, 1, ""⟩) (.Int 1 ⟨0, 0, ""⟩)
    (.Int 1 ⟨0, 1, ""⟩) dloc rfl rfl).2.2 1 ⟨0, 0, ""⟩ ⟨0, 1, ""⟩ (by decide)
  simpa using h.1

/-- C3: `Env::set` on a name already bound in the local frame leaves the
store unchanged; consequently `let x = v1; let x = v2; x` (with `x` not
already bound locally) returns `v1`, and in `let x = 1; let x = print(2);
x` the second value is still evaluated (printing `2`) but its result is
not stored. -/
theorem c3_first_write_wins :
    (∀ (parent : Option Env) (vars : List (String × Term)) (name : String)
        (t v : Term), vars.lookup name = some v →
        Env.set (.mk parent vars) name t = .mk parent vars)
    ∧ (∀ (n : Nat) (p : Option Env) (vars : List (String × Term))
        (v1 v2 : Term) (lx l1 l2 loc loc2 : Location),
        selfEvaluating v1 = true → selfEvaluating v2 = true →
        vars.lookup "x" = none →
        eval (n + 4) (.mk p vars)
          (.Let ⟨"x", lx⟩ v1
            (.Let ⟨"x", l1⟩ v2 (.Var ⟨"x", l2⟩) loc2) loc)
          = .ok (.mk p (("x", v1) :: vars)) [] v1)
    ∧ eval 12 Env.new letRebindPrintProg
        = .ok (.mk none [("x", .Int 1 dloc)]) ["2"] (.Int 1 dloc) := by
  refine ⟨fun parent vars name t v h => ?_, ?_, by decide⟩
  · simp [Env.set, h]
  · intro n p vars v1 v2 lx l1 l2 loc loc2 h1 h2 hx
    have e1 : eval (n + 3) (.mk p vars) v1 = .ok (.mk p vars) [] v1 :=
      eval_selfEval_id (n + 2) _ v1 h1
    have e2 : eval (n + 2) (.mk p (("x", v1) :: vars)) v2
        = .ok (.mk p (("x", v1) :: vars)) [] v2 :=
      eval_selfEval_id (n + 1) _ v2 h2
    have e3 : eval (n + 1) (.mk p (("x", v1) :: vars)) v1
        = .ok (.mk p (("x", v1) :: vars)) [] v1 :=
      eval_selfEval_id n _ v1 h1
    simp [eval_let_step, eval_var_step, eval_let, eval_var, e1, e2, e3,
      Env.set, Env.get_mk, hx, List.lookup, Result.withOut]

/-- Witness for C3 with `v1 = Int 1`, `v2 = Int 2` in an empty root
frame. -/
theorem c3_first_write_wins_witness :
    eval 4 (.mk none [])
      (.Let ⟨"x", dloc⟩ (.Int 1 dloc)
        (.Let ⟨"x", dloc⟩ (.Int 2 dloc) (.Var ⟨"x", dloc⟩) dloc) dloc)
      = .ok (.mk none [("x", .Int 1 dloc)]) [] (.Int 1 dloc) :=
  (c3_first_write_wins).2.1 0 none [] (.Int 1 dloc) (.Int 2 dloc)
    dloc dloc dloc dloc dloc rfl rfl rfl

/-- C7: the factorial scenario
`let factorial = fn (n) => if n <= 1 { 1 } else { n * factorial(n - 1) };
factorial(4)` evaluates to `Int 24` in an empty root environment. -/
theorem c7_factorial_four :
    eval 60 Env.new factorialProg
      = .ok (Env.new.set "factorial" factorialFn) [] (.Int 24 dloc) := by
  decide

/-- C2: a matching call evaluates the body in a fresh child frame
extending the call-site environment (`Env.extend env1`, populated by
`bindArgs`); a `Function` value carries no captured environment at all.
Hence (second conjunct) the free `x` of `f` in
`let f = fn () => x; let g = fn (x) => f(); g(k)` resolves to `g`'s
parameter at the call site: dynamic scoping, not closures. -/
theorem c2_call_extends_call_site_env (n : Nat) (env env1 cenv : Env)
    (o1 oA : List String) (callee body : Term) (args : List Term)
    (ps : List Var) (fl loc : Location)
    (hc : eval n env callee = .ok env1 o1 (.Function ps body fl))
    (hlen : ps.length = args.length)
    (hb : bindArgs (eval n) (Env.extend env1) [] (args.zip ps)
      = .ok (cenv, oA)) :
    (eval (n + 1) env (.Call callee args loc)
      = match eval n cenv body with
        | .ok _ o2 r => .ok env1 (o1 ++ oA ++ o2) r
        | r => r)
    ∧ (∀ k : Int, eval 12 Env.new (dynScopeProg k)
        = .ok ((Env.new.set "f" freeVarFn).set "g" callerFn) [] (.Int k dloc)) := by
  constructor
  · simp [eval_call_step, eval_call, hc, hlen, hb]
  · intro k
    rfl

/-- Witness for C2: calling a constant function in the empty root
environment. -/
theorem c2_call_extends_call_site_env_witness :
    eval 2 Env.new (.Call (.Function [] (.Int 5 dloc) dloc) [] dloc)
      = .ok Env.new [] (.Int 5 dloc) := by
  have h := (c2_call_extends_call_site_env 1 Env.new Env.new
    (Env.extend Env.new) [] [] (.Function [] (.Int 5 dloc) dloc)
    (.Int 5 dloc) [] [] dloc dloc rfl rfl rfl).1
  simpa [eval] using h

/-- The evaluation invariant: started from a value-only environment, a
normal return delivers a value-only environment and a fully evaluated
value. -/
def EvalOK (ev : Env → Term → Result) : Prop :=
  ∀ env t env2 out t2, envValues env = true → ev env t = .ok env2 out t2 →
    envValues env2 = true ∧ isValue t2 = true

/-- The error constructor always yields an `Error` node, a value. -/
theorem isValue_error (t : Term) (m f : String) :
    isValue (error t m f) = true := by
  cases t <;> simp [error, isValue]

/-- A lookup in an all-value association list returns a value. -/
theorem lookup_all_isValue :
    ∀ (vars : List (String × Term)) (name : String) (v : Term),
      vars.all (fun p => isValue p.2) = true →
      vars.lookup name = some v → isValue v = true := by
  intro vars
  induction vars with
  | nil => intro name v _ h; simp [List.lookup] at h
  | cons a as ih =>
    intro name v hall h
    rcases a with ⟨k, b⟩
    simp only [List.all_cons, Bool.and_eq_true] at hall
    by_cases hk : name == k
    · simp [List.lookup, hk] at h
      rw [← h]
      simpa using hall.1
    · simp [List.lookup, hk] at h
      exact ih name v hall.2 h

/-- A `get` through a value-only chain returns a value. -/
theorem envValues_get : ∀ (env : Env) (name : String) (v : Term),
    envValues env = true → env.get name = some v → isValue v = true
  | .mk none vars => by
    intro name v henv h
    simp only [envValues] at henv
    simp only [Env.get] at h
    split at h
    next t hl =>
      cases h
      exact lookup_all_isValue vars name _ henv hl
    next hl => cases h
  | .mk (some pp) vars => by
    intro name v henv h
    simp only [envValues, Bool.and_eq_true] at henv
    simp only [Env.get] at h
    split at h
    next t hl =>
      cases h
      exact lookup_all_isValue vars name _ henv.1 hl
    next hl => exact envValues_get pp name v henv.2 h

/-- `Env::set` with a value preserves the value-only invariant. -/
theorem envValues_set (env : Env) (name : String) (v : Term)
    (henv : envValues env = true) (hv : isValue v = true) :
    envValues (env.set name v) = true := by
  cases env with
  | mk p vars =>
    simp only [Env.set]
    split
    · exact henv
    · rw [envValues_mk] at henv ⊢
      simp only [List.all_cons, Bool.and_eq_true] at henv ⊢
      exact ⟨⟨hv, henv.1⟩, henv.2⟩

/-- `Env::extend` preserves the value-only invariant. -/
theorem envValues_extend (env : Env) (h : envValues env = true) :
    envValues (Env.extend env) = true := by
  simp [Env.extend, envValues, h]

/-- Unpack an `ok` result of `Result.withOut`. -/
theorem withOut_ok {pre : List String} {r : Result} {env2 : Env}
    {out : List String} {t2 : Term} (h : r.withOut pre = .ok env2 out t2) :
    ∃ o, r = .ok env2 o t2 ∧ out = pre ++ o := by
  cases r with
  | ok e o t =>
    simp only [Result.withOut] at h
    obtain ⟨rfl, rfl, rfl⟩ := by simpa using h
    exact ⟨o, rfl, rfl⟩
  | panic => simp [Result.withOut] at h
  | timeout => simp [Result.withOut] at h

/-- `bindArgs` only aborts with a panic or a timeout. -/
theorem bindArgs_error (ev : Env → Term → Result) :
    ∀ (pairs : List (Term × Var)) (env : Env) (out : List String)
      (r : Result), bindArgs ev env out pairs = .error r →
      r = .panic ∨ r = .timeout := by
  intro pairs
  induction pairs with
  | nil => intro env out r h; simp [bindArgs] at h
  | cons a rest ih =>
    intro env out r h
    rcases a with ⟨arg, param⟩
    simp only [bindArgs] at h
    split at h
    · exact ih _ _ _ h
    · next heq =>
      injection h with h2
      cases hx : ev env arg with
      | ok e o t => exact absurd hx (heq e o t)
      | panic => rw [hx] at h2; exact Or.inl h2.symm
      | timeout => rw [hx] at h2; exact Or.inr h2.symm

/-- `bindArgs` stores only evaluated values, so the child frame stays
value-only. -/
theorem bindArgs_values (ev : Env → Term → Result) (hEv : EvalOK ev) :
    ∀ (pairs : List (Term × Var)) (env : Env) (out : List String)
      (cenv : Env) (couts : List String),
      envValues env = true → bindArgs ev env out pairs = .ok (cenv, couts) →
      envValues cenv = true := by
  intro pairs
  induction pairs with
  | nil =>
    intro env out cenv couts henv h
    simp [bindArgs] at h
    rw [← h.1]
    exact henv
  | cons a rest ih =>
    intro env out cenv couts henv h
    rcases a with ⟨arg, param⟩
    simp only [bindArgs] at h
    split at h
    · next e1 o1 val heq =>
      obtain ⟨he1, hval⟩ := hEv env arg e1 o1 val henv heq
      exact ih _ _ _ _ (envValues_set e1 param.text val he1 hval) h
    · simp at h

/-- `impl_binary_op_int` preserves the invariant when its result builder
produces values. -/
theorem impl_binary_op_int_ok {ev : Env → Term → Result} {env : Env}
    {lhs rhs : Term} {out : Int → Int → Option Term} {env2 : Env}
    {o : List String} {t2 : Term} (hEv : EvalOK ev)
    (hout : ∀ a b t, out a b = some t → isValue t = true)
    (henv : envValues env = true)
    (h : impl_binary_op_int ev env lhs rhs out = .ok env2 o t2) :
    envValues env2 = true ∧ isValue t2 = true := by
  unfold impl_binary_op_int at h
  split at h
  next env1 out1 lt heq =>
    have he1 := (hEv _ _ _ _ _ henv heq).1
    split at h
    next m f l =>
      cases h
      exact ⟨he1, rfl⟩
    next lv l =>
      split at h
      next env2x out2 rt heq2 =>
        have he2 := (hEv _ _ _ _ _ he1 heq2).1
        split at h
        next m f l2 =>
          cases h
          exact ⟨he2, rfl⟩
        next rv l2 =>
          split at h
          next t ht =>
            cases h
            exact ⟨he2, hout lv rv t2 ht⟩
          next => simp at h
        next hne1 hne2 =>
          cases h
          exact ⟨he2, isValue_error rt _ _⟩
      next hexc => exact ((hexc _ _ _ h).elim)
    next hne1 hne2 =>
      cases h
      exact ⟨he1, isValue_error lt _ _⟩
  next hexc => exact ((hexc _ _ _ h).elim)

/-- `impl_binary_op_bool` preserves the invariant when its result builder
produces values. -/
theorem impl_binary_op_bool_ok {ev : Env → Term → Result} {env : Env}
    {lhs rhs : Term} {out : Bool → Bool → Term} {env2 : Env}
    {o : List String} {t2 : Term} (hEv : EvalOK ev)
    (hout : ∀ a b, isValue (out a b) = true)
    (henv : envValues env = true)
    (h : impl_binary_op_bool ev env lhs rhs out = .ok env2 o t2) :
    envValues env2 = true ∧ isValue t2 = true := by
  unfold impl_binary_op_bool at h
  split at h
  next env1 out1 lt heq =>
    have he1 := (hEv _ _ _ _ _ henv heq).1
    split at h
    next m f l =>
      cases h
      exact ⟨he1, rfl⟩
    next lv l =>
      split at h
      next env2x out2 rt heq2 =>
        have he2 := (hEv _ _ _ _ _ he1 heq2).1
        split at h
        next m f l2 =>
          cases h
          exact ⟨he2, rfl⟩
        next rv l2 =>
          cases h
          exact ⟨he2, hout lv rv⟩
        next hne1 hne2 =>
          cases h
          exact ⟨he2, isValue_error rt _ _⟩
      next hexc => exact ((hexc _ _ _ h).elim)
    next hne1 hne2 =>
      cases h
      exact ⟨he1, isValue_error lt _ _⟩
  next hexc => exact ((hexc _ _ _ h).elim)

/-- `eval_eq` preserves the invariant (its result is a `Bool`). -/
theorem eval_eq_ok {ev : Env → Term → Result} {env : Env} {lhs rhs : Term}
    {lc : Location} {env2 : Env} {o : List String} {t2 : Term}
    (hEv : EvalOK ev) (henv : envValues env = true)
    (h : eval_eq ev env lhs rhs lc = .ok env2 o t2) :
    envValues env2 = true ∧ isValue t2 = true := by
  unfold eval_eq at h
  split at h
  next env1 out1 lt heq =>
    have he1 := (hEv _ _ _ _ _ henv heq).1
    split at h
    next env2x out2 rt heq2 =>
      cases h
      exact ⟨(hEv _ _ _ _ _ he1 heq2).1, rfl⟩
    next hexc => exact ((hexc _ _ _ h).elim)
  next hexc => exact ((hexc _ _ _ h).elim)

/-- `eval_neq` preserves the invariant (its result is a `Bool`). -/
theorem eval_neq_ok {ev : Env → Term → Result} {env : Env} {lhs rhs : Term}
    {lc : Location} {env2 : Env} {o : List String} {t2 : Term}
    (hEv : EvalOK ev) (henv : envValues env = true)
    (h : eval_neq ev env lhs rhs lc = .ok env2 o t2) :
    envValues env2 = true ∧ isValue t2 = true := by
  unfold eval_neq at h
  split at h
  next env1 out1 lt heq =>
    have he1 := (hEv _ _ _ _ _ henv heq).1
    split at h
    next env2x out2 rt heq2 =>
      cases h
      exact ⟨(hEv _ _ _ _ _ he1 heq2).1, rfl⟩
    next hexc => exact ((hexc _ _ _ h).elim)
  next hexc => exact ((hexc _ _ _ h).elim)

/-- Every fuel level of `eval` satisfies the invariant: from a value-only
environment, a normal return yields a value-only environment and a fully
evaluated value (`Let` and `Call` evaluate before `Env::set`, so only
values are ever stored). -/
theorem evalPreserves : (n : Nat) → EvalOK (eval n)
  | 0 => by
    intro env t env2 out t2 _ h
    simp [eval] at h
  | n + 1 => by
    have ih := evalPreserves n
    intro env t env2 out t2 henv h
    cases t with
    | Int v l =>
      simp only [eval] at h
      cases h
      exact ⟨henv, rfl⟩
    | Str v l =>
      simp only [eval] at h
      cases h
      exact ⟨henv, rfl⟩
    | Bool v l =>
      simp only [eval] at h
      cases h
      exact ⟨henv, rfl⟩
    | Error m f l =>
      simp only [eval] at h
      cases h
      exact ⟨henv, rfl⟩
    | Function p v l =>
      simp only [eval] at h
      cases h
      exact ⟨henv, rfl⟩
    | If c th el lc =>
      rw [eval_if_step] at h
      unfold eval_if at h
      split at h
      next env1 out1 cv heq =>
        have he1 := (ih _ _ _ _ _ henv heq).1
        split at h
        next l =>
          obtain ⟨o2, hr, rfl⟩ := withOut_ok h
          exact ih _ _ _ _ _ he1 hr
        next l =>
          obtain ⟨o2, hr, rfl⟩ := withOut_ok h
          exact ih _ _ _ _ _ he1 hr
        next hne1 hne2 =>
          cases h
          exact ⟨he1, isValue_error cv _ _⟩
      next hexc => exact ((hexc _ _ _ h).elim)
    | Let nm v nx lc =>
      rw [eval_let_step] at h
      unfold eval_let at h
      split at h
      next env1 out1 val heq =>
        have hv := ih _ _ _ _ _ henv heq
        dsimp only at h
        obtain ⟨o2, hr, rfl⟩ := withOut_ok h
        refine ih _ _ _ _ _ ?_ hr
        split
        · exact envValues_set _ _ _ hv.1 hv.2
        · exact hv.1
      next hexc => exact ((hexc _ _ _ h).elim)
    | Var vr =>
      rw [eval_var_step] at h
      unfold eval_var at h
      split at h
      next term heq => exact ih _ _ _ _ _ henv h
      next heq =>
        cases h
        exact ⟨henv, isValue_error _ _ _⟩
    | Call c args lc =>
      rw [eval_call_step] at h
      unfold eval_call at h
      split at h
      next env1 out1 cv heq =>
        have he1 := (ih _ _ _ _ _ henv heq).1
        split at h
        next ps body fl =>
          dsimp only at h
          split at h
          · cases h
            exact ⟨he1, isValue_error _ _ _⟩
          · split at h
            next r hberr =>
              rcases bindArgs_error (eval n) _ _ _ _ hberr with h1 | h1 <;>
                rw [h1] at h <;> simp at h
            next cenv oA hbok =>
              split at h
              next e3 o2 res heq3 =>
                cases h
                have hcenv : envValues cenv = true :=
                  bindArgs_values (eval n) ih _ _ _ _ _
                    (envValues_extend _ he1) hbok
                exact ⟨he1, (ih _ _ _ _ _ hcenv heq3).2⟩
              next hexc => exact ((hexc _ _ _ h).elim)
        next hne =>
          cases h
          exact ⟨he1, isValue_error cv _ _⟩
      next hexc => exact ((hexc _ _ _ h).elim)
    | First v lc =>
      rw [eval_first_step] at h
      unfold eval_first at h
      split at h
      next env1 out1 tv heq =>
        have he1 := (ih _ _ _ _ _ henv heq).1
        split at h
        next f sx l =>
          obtain ⟨o2, hr, rfl⟩ := withOut_ok h
          exact ih _ _ _ _ _ he1 hr
        next hne =>
          cases h
          exact ⟨he1, isValue_error tv _ _⟩
      next hexc => exact ((hexc _ _ _ h).elim)
    | Second v lc =>
      rw [eval_second_step] at h
      unfold eval_second at h
      split at h
      next env1 out1 tv heq =>
        have he1 := (ih _ _ _ _ _ henv heq).1
        split at h
        next f sx l =>
          obtain ⟨o2, hr, rfl⟩ := withOut_ok h
          exact ih _ _ _ _ _ he1 hr
        next hne =>
          cases h
          exact ⟨he1, isValue_error tv _ _⟩
      next hexc => exact ((hexc _ _ _ h).elim)
    | Print v lc =>
      rw [eval_print_step] at h
      unfold eval_print at h
      split at h
      next env1 out1 tv heq =>
        have hv := ih _ _ _ _ _ henv heq
        split at h
        next m f l =>
          cases h
          exact ⟨hv.1, rfl⟩
        next iv l =>
          cases h
          exact ⟨hv.1, rfl⟩
        next sv l =>
          cases h
          exact ⟨hv.1, rfl⟩
        next bv l =>
          cases h
          exact ⟨hv.1, rfl⟩
        next ps b l =>
          cases h
          exact ⟨hv.1, rfl⟩
        next hne1 hne2 hne3 hne4 hne5 =>
          cases h
          exact ⟨hv.1, isValue_error tv _ _⟩
      next hexc => exact ((hexc _ _ _ h).elim)
    | Tuple f sx lc =>
      rw [eval_tuple_step] at h
      unfold eval_tuple at h
      split at h
      next env1 out1 fv heq =>
        have hf := ih _ _ _ _ _ henv heq
        split at h
        next env2x out2 sv heq2 =>
          have hs := ih _ _ _ _ _ hf.1 heq2
          cases h
          exact ⟨hs.1, by simp [isValue, hf.2, hs.2]⟩
        next hexc => exact ((hexc _ _ _ h).elim)
      next hexc => exact ((hexc _ _ _ h).elim)
    | Binary lh op rh lc =>
      rw [eval_binary_step] at h
      unfold eval_binary at h
      cases op
      case Add =>
        unfold eval_add at h
        exact impl_binary_op_int_ok ih (fun a b t ht => by cases ht; rfl) henv h
      case Sub =>
        unfold eval_sub at h
        exact impl_binary_op_int_ok ih (fun a b t ht => by cases ht; rfl) henv h
      case Mul =>
        unfold eval_mul at h
        exact impl_binary_op_int_ok ih (fun a b t ht => by cases ht; rfl) henv h
      case Div =>
        unfold eval_div at h
        refine impl_binary_op_int_ok ih (fun a b t ht => ?_) henv h
        cases hw : wrapping_div a b
        · rw [hw] at ht; simp at ht
        · rw [hw] at ht
          simp at ht
          subst ht
          rfl
      case Rem =>
        unfold eval_rem at h
        refine impl_binary_op_int_ok ih (fun a b t ht => ?_) henv h
        cases hw : wrapping_rem a b
        · rw [hw] at ht; simp at ht
        · rw [hw] at ht
          simp at ht
          subst ht
          rfl
      case Eq =>
        unfold eval_eq at h
        exact eval_eq_ok ih henv (by exact h)
      case Neq =>
        unfold eval_neq at h
        exact eval_neq_ok ih henv (by exact h)
      case Lt =>
        unfold eval_lt at h
        exact impl_binary_op_int_ok ih (fun a b t ht => by cases ht; rfl) henv h
      case Gt =>
        unfold eval_gt at h
        exact impl_binary_op_int_ok ih (fun a b t ht => by cases ht; rfl) henv h
      case Lte =>
        unfold eval_lte at h
        exact impl_binary_op_int_ok ih (fun a b t ht => by cases ht; rfl) henv h
      case Gte =>
        unfold eval_gte at h
        exact impl_binary_op_int_ok ih (fun a b t ht => by cases ht; rfl) henv h
      case And =>
        unfold eval_and at h
        refine impl_binary_op_bool_ok ih (fun a b => ?_) henv h
        rfl
      case Or =>
        unfold eval_or at h
        refine impl_binary_op_bool_ok ih (fun a b => ?_) henv h
        rfl

/-- C10: starting from a value-only environment (in particular the empty
root), every term stored in any frame is a fully evaluated value —
`Let` and `Call` evaluate before calling `Env::set` — so a normal return
delivers a value-only environment and a value result; and the
re-evaluation a `Var` lookup performs on a found binding returns the
stored term unchanged, with no output and no environment change. -/
theorem c10_stored_terms_are_values :
    (∀ (n : Nat) (env : Env) (t : Term) (env2 : Env) (out : List String)
        (t2 : Term), envValues env = true → eval n env t = .ok env2 out t2 →
        envValues env2 = true ∧ isValue t2 = true)
    ∧ (∀ (n : Nat) (env : Env) (v : Term), isValue v = true →
        tupleDepth v < n → eval n env v = .ok env [] v) :=
  ⟨fun n => evalPreserves n, fun n env v hv hd => eval_value_id n env v hv hd⟩

/-- Witness for C10: `let x = 1; 2` stores a value and returns a value,
and a tuple value re-evaluates to itself without output or environment
change. -/
theorem c10_stored_terms_are_values_witness :
    (envValues (.mk none [("x", .Int 1 dloc)]) = true
      ∧ isValue (.Int 2 dloc) = true)
    ∧ eval 2 Env.new (.Tuple (.Int 1 dloc) (.Bool true dloc) dloc)
        = .ok Env.new [] (.Tuple (.Int 1 dloc) (.Bool true dloc) dloc) :=
  ⟨c10_stored_terms_are_values.1 2 Env.new
      (.Let ⟨"x", dloc⟩ (.Int 1 dloc) (.Int 2 dloc) dloc)
      (.mk none [("x", .Int 1 dloc)]) [] (.Int 2 dloc)
      (by decide) (by decide),
    c10_stored_terms_are_values.2 2 Env.new
      (.Tuple (.Int 1 dloc) (.Bool true dloc) dloc)
      (by decide) (by decide)⟩
